import Mathlib

/-!
Shallow embedding of the content-addressed trie storage layer: the bounded
shard cache, the per-chunk touch registry, the live caching storage with its
touch counter, the proof-replay storage used for storage-proof testing, and
the refcounted commit, together with proofs of their stated properties.

Hashes are modelled as natural numbers and raw byte blobs as lists of
natural numbers.  The replay storage (IncompletePartialStorage) is embedded
directly from the repository source; the live caching storage, whose source
is referenced only through its tests, is modelled from the specification and
marked as such on each definition.
-/

/-- Raw byte blob (RawBytes): the serialized form of a trie node or value. -/
abbrev Bytes := List Nat

/-- Association-list lookup by key, the map primitive used throughout. -/
def lookupA {α : Type} : List (Nat × α) → Nat → Option α
  | [], _ => none
  | (k, v) :: rest, h => if k = h then some v else lookupA rest h

/-- Storage error type: TrieNodeMissing is returned by replay storage, and
live caching storage surfaces an unresolvable hash as
StorageInconsistentState (both variants appear in the source tests). -/
inductive StorageError where
  | TrieNodeMissing : StorageError
  | StorageInconsistentState : String → StorageError
  deriving DecidableEq

deriving instance DecidableEq for Except

/-- Replay storage from the source (trie_tests.rs, IncompletePartialStorage):
a frozen recorded map, the set of hashes already visited, and the count of
distinct nodes after which every retrieval fails. -/
structure IncompletePartialStorage where
  recorded_storage : List (Nat × Bytes)
  visited_nodes : Finset Nat
  node_count_to_fail_after : Nat
  deriving DecidableEq

/-- The recorded map built by the replay-storage constructor: every blob of
the proof keyed by its content hash. -/
def recordedMap (hashFn : Bytes → Nat) (nodes : List Bytes) : List (Nat × Bytes) :=
  nodes.map (fun v => (hashFn v, v))

/-- Constructor of the replay storage (source lines 22-32): hash every
recorded blob, start with no visited nodes. -/
def IncompletePartialStorage.new (hashFn : Bytes → Nat) (nodes : List Bytes)
    (nodes_count_to_fail_at : Nat) : IncompletePartialStorage :=
  { recorded_storage := recordedMap hashFn nodes
    visited_nodes := ∅
    node_count_to_fail_after := nodes_count_to_fail_at }

/-- Retrieval on replay storage (source lines 35-50): look the hash up in the
recorded map, mark it visited on success, and fail with TrieNodeMissing once
the visited set has grown beyond node_count_to_fail_after. -/
def IncompletePartialStorage.retrieve_raw_bytes (s : IncompletePartialStorage) (h : Nat) :
    Except StorageError Bytes × IncompletePartialStorage :=
  let result : Except StorageError Bytes :=
    match lookupA s.recorded_storage h with
    | some val => Except.ok val
    | none => Except.error StorageError.TrieNodeMissing
  let visited : Finset Nat :=
    match result with
    | Except.ok _ => insert h s.visited_nodes
    | Except.error _ => s.visited_nodes
  if s.node_count_to_fail_after < visited.card then
    (Except.error StorageError.TrieNodeMissing, { s with visited_nodes := visited })
  else
    (result, { s with visited_nodes := visited })

/-- Run a sequence of retrievals against replay storage, collecting every
result and threading the state. -/
def runReplay (s : IncompletePartialStorage) :
    List Nat → List (Except StorageError Bytes) × IncompletePartialStorage
  | [] => ([], s)
  | h :: rest =>
    let step := s.retrieve_raw_bytes h
    let next := runReplay step.2 rest
    (step.1 :: next.1, next.2)

/-- Result of a call that may instead hit a failed runtime assertion: such a
call stops the program and never produces a value. -/
inductive PanicOr (α : Type) where
  | panicked : String → PanicOr α
  | value : α → PanicOr α

/-- The genuine in-memory partial storage the replay variant pretends to be. -/
structure TrieMemoryPartialStorage where
  recorded_storage : List (Nat × Bytes)

/-- The as_partial_storage accessor of the replay storage (source lines
52-55): its body is a failed runtime assertion, because the variant pretends
to be partial storage but is not; a call can therefore never return a value. -/
def IncompletePartialStorage.as_partial_storage (_ : IncompletePartialStorage) :
    PanicOr (Option TrieMemoryPartialStorage) :=
  PanicOr.panicked "not implemented"

/-- Modelled from the spec: the cache mode of live caching storage, as named
by the source tests (TrieCacheMode::CachingShard, the default, and
TrieCacheMode::CachingChunk); the enum itself is not under src. -/
inductive TrieCacheMode where
  | CachingShard : TrieCacheMode
  | CachingChunk : TrieCacheMode
  deriving DecidableEq

/-- Modelled from the spec: the configured size threshold above which a blob
is never inserted into the bounded shard cache (TRIE_LIMIT_CACHED_VALUE_SIZE
is referenced but not defined under src, so the value is representative). -/
def TRIE_LIMIT_CACHED_VALUE_SIZE : Nat := 1000

/-- Modelled from the spec: the default capacity of the bounded shard cache,
chosen by the owning shard context. -/
def TRIE_DEFAULT_SHARD_CACHE_SIZE : Nat := 50000

/-- Keep all pairs of an association list whose key differs from h. -/
def eraseKey (l : List (Nat × Bytes)) (h : Nat) : List (Nat × Bytes) :=
  l.filter (fun p => p.1 != h)

/-- Modelled from the spec: the bounded least-recently-used cache (TrieCache),
shared per shard.  Entries are kept in recency order, most recently used
first, so eviction drops entries from the back. -/
structure TrieCache where
  entries : List (Nat × Bytes)
  capacity : Nat
  deriving DecidableEq

/-- Modelled from the spec: a fresh shard cache of default capacity. -/
def TrieCache.new : TrieCache :=
  { entries := [], capacity := TRIE_DEFAULT_SHARD_CACHE_SIZE }

/-- Modelled from the spec: a fresh shard cache of the given capacity. -/
def TrieCache.with_capacity (n : Nat) : TrieCache :=
  { entries := [], capacity := n }

/-- Modelled from the spec: get returns the cached bytes and refreshes the
recency of the entry on a hit; a miss is a normal none, not a failure. -/
def TrieCache.get (c : TrieCache) (h : Nat) : Option Bytes × TrieCache :=
  match lookupA c.entries h with
  | none => (none, c)
  | some b => (some b, { c with entries := (h, b) :: eraseKey c.entries h })

/-- Modelled from the spec: put inserts or refreshes recency and evicts the
least recently used entries beyond capacity. -/
def TrieCache.put (c : TrieCache) (h : Nat) (b : Bytes) : TrieCache :=
  { c with entries := ((h, b) :: eraseKey c.entries h).take c.capacity }

/-- Length of the shard cache, as asserted by the source tests. -/
def TrieCache.len (c : TrieCache) : Nat := c.entries.length

/-- Modelled from the spec: insertion into the chunk touch registry.  The
registry never evicts, and an already-present hash is left unchanged
(content addressing makes the stored bytes identical anyway). -/
def insertA (l : List (Nat × Bytes)) (h : Nat) (b : Bytes) : List (Nat × Bytes) :=
  match lookupA l h with
  | some _ => l
  | none => (h, b) :: l

/-- Modelled from the spec (section 4.2): live caching storage — the backing
content store, the bounded shard cache, the per-chunk touch registry
(chunk_cache), the active cache mode and the touch counter. -/
structure TrieCachingStorage where
  store : List (Nat × Bytes)
  shard_cache : TrieCache
  chunk_cache : List (Nat × Bytes)
  cache_mode : TrieCacheMode
  counter : Nat
  deriving DecidableEq

/-- Modelled from the spec: a fresh live storage session over a backing store
and a (possibly shared) shard cache; the default mode is CachingShard and the
chunk registry starts empty. -/
def TrieCachingStorage.new (store : List (Nat × Bytes)) (cache : TrieCache) :
    TrieCachingStorage :=
  { store := store
    shard_cache := cache
    chunk_cache := []
    cache_mode := TrieCacheMode.CachingShard
    counter := 0 }

/-- Modelled from the spec: a pure mode switch, effective for later calls. -/
def TrieCachingStorage.set_mode (s : TrieCachingStorage) (m : TrieCacheMode) :
    TrieCachingStorage :=
  { s with cache_mode := m }

/-- The touch counter accessor (get_touched_nodes_count in the source). -/
def TrieCachingStorage.get_touched_nodes_count (s : TrieCachingStorage) : Nat :=
  s.counter

/-- Modelled from the spec: the error for a content hash that is not
resolvable through any available path — the taxon the spec names NodeMissing.
In live caching storage it surfaces as the StorageInconsistentState variant,
as asserted by test_retrieve_error in the source. -/
def nodeMissingError : StorageError :=
  StorageError.StorageInconsistentState "Trie node missing"

/-- Modelled from the spec (section 4.2, steps 2-6): finish a registry-miss
retrieval that found bytes b — bump the touch counter, insert into the shard
cache when in CachingShard mode and the blob is within the size threshold,
and insert into the chunk registry when in CachingChunk mode. -/
def TrieCachingStorage.retrieveFound (s : TrieCachingStorage) (h : Nat) (b : Bytes)
    (sc : TrieCache) : Except StorageError Bytes × TrieCachingStorage :=
  let sc2 :=
    if s.cache_mode = TrieCacheMode.CachingShard ∧ b.length ≤ TRIE_LIMIT_CACHED_VALUE_SIZE
    then sc.put h b else sc
  let cc2 :=
    if s.cache_mode = TrieCacheMode.CachingChunk
    then insertA s.chunk_cache h b else s.chunk_cache
  (Except.ok b, { s with shard_cache := sc2, chunk_cache := cc2, counter := s.counter + 1 })

/-- Modelled from the spec (section 4.2): retrieve resolves a hash through
the chunk touch registry first (free), then the bounded shard cache, then the
backing store; the touch counter increments exactly when the hash is not in
the registry, and an unresolvable hash fails with the missing-node error. -/
def TrieCachingStorage.retrieve_raw_bytes (s : TrieCachingStorage) (h : Nat) :
    Except StorageError Bytes × TrieCachingStorage :=
  match lookupA s.chunk_cache h with
  | some b => (Except.ok b, s)
  | none =>
    match TrieCache.get s.shard_cache h with
    | (some b, sc) => s.retrieveFound h b sc
    | (none, sc) =>
      match lookupA s.store h with
      | some b => s.retrieveFound h b sc
      | none =>
        (Except.error nodeMissingError, { s with shard_cache := sc, counter := s.counter + 1 })

/-- An operation on a live storage session: a retrieval or a mode switch. -/
inductive StorageOp where
  | retrieveOp : Nat → StorageOp
  | setModeOp : TrieCacheMode → StorageOp
  deriving DecidableEq

/-- Apply one operation to live storage, keeping only the state. -/
def applyOp (s : TrieCachingStorage) : StorageOp → TrieCachingStorage
  | StorageOp.retrieveOp h => (s.retrieve_raw_bytes h).2
  | StorageOp.setModeOp m => s.set_mode m

/-- Run a list of operations on live storage. -/
def runOps (s : TrieCachingStorage) (ops : List StorageOp) : TrieCachingStorage :=
  ops.foldl applyOp s

/-- Run a list of plain retrievals on live storage, keeping only the state. -/
def runRetrieves (s : TrieCachingStorage) (seq : List Nat) : TrieCachingStorage :=
  seq.foldl (fun t h => (t.retrieve_raw_bytes h).2) s

/-- Soundness invariant of the bounded shard cache: every entry holds exactly
the bytes the backing store has for its hash, and those bytes are within the
size threshold.  It holds for the empty cache and is preserved by every
storage operation. -/
def cacheInv (s : TrieCachingStorage) : Prop :=
  ∀ p ∈ s.shard_cache.entries,
    lookupA s.store p.1 = some p.2 ∧ p.2.length ≤ TRIE_LIMIT_CACHED_VALUE_SIZE

/-- Modelled from the spec: the shapes of serialized trie nodes appearing in
the concrete scenarios of section 8 (the trie itself is an external
collaborator of the storage layer).  A Leaf carries the remaining nibble path
and the content hash of its value, an Ext carries a shared nibble path and a
child hash, a Branch maps next nibbles to child hashes. -/
inductive RawTrieNode where
  | Leaf : List Nat → Nat → RawTrieNode
  | Ext : List Nat → Nat → RawTrieNode
  | Branch : List (Nat × Nat) → RawTrieNode
  deriving DecidableEq

/-- Flatten a list of pairs. -/
def flattenPairs : List (Nat × Nat) → List Nat
  | [] => []
  | (a, b) :: t => a :: b :: flattenPairs t

/-- Group a list into consecutive pairs. -/
def pairUp : List Nat → List (Nat × Nat)
  | a :: b :: t => (a, b) :: pairUp t
  | _ => []

/-- Modelled from the spec: injective serialization of trie nodes into raw
bytes, so nodes live in the content-addressed store like any other blob. -/
def encodeNode : RawTrieNode → Bytes
  | RawTrieNode.Leaf p v => 0 :: p.length :: (p ++ [v])
  | RawTrieNode.Ext p c => 1 :: p.length :: (p ++ [c])
  | RawTrieNode.Branch ch => 2 :: flattenPairs ch

/-- Deserialization of trie nodes from raw bytes. -/
def decodeNode : Bytes → Option RawTrieNode
  | 0 :: n :: rest =>
    match rest.drop n with
    | [v] => some (RawTrieNode.Leaf (rest.take n) v)
    | _ => none
  | 1 :: n :: rest =>
    match rest.drop n with
    | [c] => some (RawTrieNode.Ext (rest.take n) c)
    | _ => none
  | 2 :: rest => some (RawTrieNode.Branch (pairUp rest))
  | _ => none

/-- Pack a nibble list two nibbles per byte. -/
def nibblePairs : List Nat → List Nat
  | a :: b :: t => (16 * a + b) :: nibblePairs t
  | _ => []

/-- Modelled from the spec: NibbleSlice::encode_nibbles with the leaf flag
false, as used by create_trie_key in the source tests — a header byte
carrying the parity flag (plus the first nibble when the count is odd)
followed by the packed nibble pairs. -/
def encode_nibbles : List Nat → Bytes
  | [] => [0]
  | a :: t =>
    if (a :: t).length % 2 = 1 then (16 + a) :: nibblePairs t
    else 0 :: nibblePairs (a :: t)

/-- Nibble expansion of key bytes, as the trie sees lookup keys. -/
def toNibbles : Bytes → List Nat
  | [] => []
  | b :: t => b / 16 :: b % 16 :: toNibbles t

/-- Modelled from the spec: the external trie lookup driving the storage
abstraction — walk Extension, Branch and Leaf nodes along the nibble path,
dereferencing every node and the final value through retrieve_raw_bytes.
The fuel argument bounds the depth of the walk. -/
def getHelper : Nat → TrieCachingStorage → Nat → List Nat →
    Except StorageError (Option Bytes) × TrieCachingStorage
  | 0, s, _, _ => (Except.error (StorageError.StorageInconsistentState "out of fuel"), s)
  | fuel + 1, s, root, key =>
    match s.retrieve_raw_bytes root with
    | (Except.error e, s2) => (Except.error e, s2)
    | (Except.ok bytes, s2) =>
      match decodeNode bytes with
      | none => (Except.error (StorageError.StorageInconsistentState "decode"), s2)
      | some (RawTrieNode.Leaf p vh) =>
        if key = p then
          match s2.retrieve_raw_bytes vh with
          | (Except.ok vb, s3) => (Except.ok (some vb), s3)
          | (Except.error e, s3) => (Except.error e, s3)
        else (Except.ok none, s2)
      | some (RawTrieNode.Ext p c) =>
        if key.take p.length = p then getHelper fuel s2 c (key.drop p.length)
        else (Except.ok none, s2)
      | some (RawTrieNode.Branch ch) =>
        match key with
        | [] => (Except.ok none, s2)
        | n :: rest =>
          match lookupA ch n with
          | some child => getHelper fuel s2 child rest
          | none => (Except.ok none, s2)

/-- One trie lookup for a byte key from a given state root. -/
def trieLookup (s : TrieCachingStorage) (root : Nat) (key : Bytes) :
    Except StorageError (Option Bytes) × TrieCachingStorage :=
  getHelper 10 s root (toNibbles key)

/-- Per-key lookup results paired with touched-node deltas, threading the
storage state (get_touched_nodes_numbers in the source tests). -/
def runLookups (s : TrieCachingStorage) (root : Nat) :
    List Bytes → List (Except StorageError (Option Bytes) × Nat) × TrieCachingStorage
  | [] => ([], s)
  | k :: ks =>
    let step := trieLookup s root k
    let rest := runLookups step.2 root ks
    ((step.1, step.2.counter - s.counter) :: rest.1, rest.2)

/-- A refcounted trie change from the source tests: a content hash, the bytes
stored under it, and a reference-count delta. -/
structure TrieRefcountChange where
  trie_node_or_value_hash : Nat
  trie_node_or_value : Bytes
  rc : Nat
  deriving DecidableEq

/-- Modelled from the spec (section 4.5): apply one refcounted insertion to
the physical store — identical content nets to the one existing physical
entry, whose reference count is bumped; new content appends an entry. -/
def addRc (store : List (Nat × Bytes × Nat)) (c : TrieRefcountChange) :
    List (Nat × Bytes × Nat) :=
  match store with
  | [] => [(c.trie_node_or_value_hash, c.trie_node_or_value, c.rc)]
  | (h, b, n) :: rest =>
    if h = c.trie_node_or_value_hash then (h, b, n + c.rc) :: rest
    else (h, b, n) :: addRc rest c

/-- Modelled from the spec (section 4.5): apply a batch of refcounted
insertions to the physical store. -/
def applyInsertions (store : List (Nat × Bytes × Nat)) :
    List TrieRefcountChange → List (Nat × Bytes × Nat)
  | [] => store
  | c :: rest => applyInsertions (addRc store c) rest

/-- Forget reference counts, keeping the stored bytes per hash. -/
def storeBytes (store : List (Nat × Bytes × Nat)) : List (Nat × Bytes) :=
  store.map (fun p => (p.1, p.2.1))

/-- Modelled from the spec (section 8, first concrete scenario): the nine
distinct node and value blobs created by inserting the keys with nibble paths
[0,0,0], [0,1,1] and [1,0,0] (values [0], [1], [2]).  After the nibble-key
encoding the lookup paths are [1,0,0,0], [1,0,1,1] and [1,1,0,0], giving an
Extension, a Branch, a second Branch, three Leaves and three values. -/
def c7Store : List (Nat × Bytes) :=
  [(100, encodeNode (RawTrieNode.Ext [1] 101)),
   (101, encodeNode (RawTrieNode.Branch [(0, 102), (1, 103)])),
   (102, encodeNode (RawTrieNode.Branch [(0, 104), (1, 105)])),
   (103, encodeNode (RawTrieNode.Leaf [0, 0] 109)),
   (104, encodeNode (RawTrieNode.Leaf [0] 107)),
   (105, encodeNode (RawTrieNode.Leaf [1] 108)),
   (107, [0]), (108, [1]), (109, [2])]

/-- The live storage session of the first concrete scenario, cold caches. -/
def c7Storage : TrieCachingStorage :=
  TrieCachingStorage.new c7Store TrieCache.new

/-- The three lookup keys of the first concrete scenario, nibble-encoded as
by create_trie_key in the source tests. -/
def c7Keys : List Bytes :=
  [encode_nibbles [0, 0, 0], encode_nibbles [0, 1, 1], encode_nibbles [1, 0, 0]]

/-- Modelled from the spec (section 8, second concrete scenario): the logical
refcounted insertions produced by populating the trie with the two keys of
nibble paths [0,0] and [1,1], both storing the byte-identical value [1]: an
Extension, a Branch, two Leaves, and the value inserted once per key.  The
nibble-encoded lookup paths are [0,0,0,0] and [0,0,1,1]. -/
def c8Insertions : List TrieRefcountChange :=
  [{ trie_node_or_value_hash := 200, trie_node_or_value := encodeNode (RawTrieNode.Ext [0, 0] 201), rc := 1 },
   { trie_node_or_value_hash := 201, trie_node_or_value := encodeNode (RawTrieNode.Branch [(0, 202), (1, 203)]), rc := 1 },
   { trie_node_or_value_hash := 202, trie_node_or_value := encodeNode (RawTrieNode.Leaf [0] 204), rc := 1 },
   { trie_node_or_value_hash := 204, trie_node_or_value := [1], rc := 1 },
   { trie_node_or_value_hash := 203, trie_node_or_value := encodeNode (RawTrieNode.Leaf [1] 204), rc := 1 },
   { trie_node_or_value_hash := 204, trie_node_or_value := [1], rc := 1 }]

/-- The physical store resulting from committing the second scenario. -/
def c8PhysicalStore : List (Nat × Bytes × Nat) :=
  applyInsertions [] c8Insertions

/-- The live storage session of the second concrete scenario, cold caches. -/
def c8Storage : TrieCachingStorage :=
  TrieCachingStorage.new (storeBytes c8PhysicalStore) TrieCache.new

/-- The two lookup keys of the second concrete scenario. -/
def c8Keys : List Bytes :=
  [encode_nibbles [0, 0], encode_nibbles [1, 1]]

theorem lookupA_mem {α : Type} : ∀ (l : List (Nat × α)) (h : Nat) (b : α),
    lookupA l h = some b → (h, b) ∈ l := by
  intro l
  induction l with
  | nil => intro h b hl; simp [lookupA] at hl
  | cons p t ih =>
    intro h b hl
    rw [lookupA] at hl
    by_cases hk : p.1 = h
    · rw [if_pos hk] at hl
      obtain ⟨k, v⟩ := p
      obtain rfl := hk
      obtain rfl := Option.some.inj hl
      exact List.mem_cons_self _ _
    · rw [if_neg hk] at hl
      right
      exact ih h b hl

theorem replay_retrieve_of_some (s : IncompletePartialStorage) (h : Nat) (bh : Bytes)
    (hbh : lookupA s.recorded_storage h = some bh) :
    s.retrieve_raw_bytes h =
      (if s.node_count_to_fail_after < (insert h s.visited_nodes).card
        then Except.error StorageError.TrieNodeMissing else Except.ok bh,
       { s with visited_nodes := insert h s.visited_nodes }) := by
  rw [IncompletePartialStorage.retrieve_raw_bytes]
  rw [hbh]
  split <;> simp_all

theorem replay_retrieve_of_none (s : IncompletePartialStorage) (h : Nat)
    (hbh : lookupA s.recorded_storage h = none) :
    s.retrieve_raw_bytes h = (Except.error StorageError.TrieNodeMissing, s) := by
  rw [IncompletePartialStorage.retrieve_raw_bytes]
  rw [hbh]
  split <;> simp_all

theorem runReplay_length (seq : List Nat) : ∀ (s : IncompletePartialStorage),
    (runReplay s seq).1.length = seq.length := by
  induction seq with
  | nil => intro s; rfl
  | cons h t ih => intro s; simp [runReplay, ih]

theorem runReplay_get_char (seq : List Nat) : ∀ (s : IncompletePartialStorage),
    (∀ h ∈ seq, (lookupA s.recorded_storage h).isSome = true) →
    ∀ (j : Nat) (hj : j < seq.length) (b : Bytes),
      lookupA s.recorded_storage (seq.get ⟨j, hj⟩) = some b →
      (runReplay s seq).1.get? j = some (
        if (s.visited_nodes ∪ (seq.take (j + 1)).toFinset).card ≤ s.node_count_to_fail_after
        then Except.ok b else Except.error StorageError.TrieNodeMissing) := by
  induction seq with
  | nil => intro s _ j hj; simp at hj
  | cons h t ih =>
    intro s hall j hj b hb
    obtain ⟨bh, hbh⟩ : ∃ bh, lookupA s.recorded_storage h = some bh := by
      have hs := hall h (List.mem_cons_self h t)
      cases hx : lookupA s.recorded_storage h with
      | none => rw [hx] at hs; simp at hs
      | some v => exact ⟨v, rfl⟩
    have hstep := replay_retrieve_of_some s h bh hbh
    cases j with
    | zero =>
      have hbe : b = bh := by
        have : lookupA s.recorded_storage h = some b := by simpa using hb
        rw [hbh] at this
        exact (Option.some.inj this).symm
      subst hbe
      simp only [runReplay, hstep]
      simp only [List.get?_cons_zero, List.take_succ_cons, List.take_zero,
        List.toFinset_cons, List.toFinset_nil, Finset.union_insert, Finset.union_empty]
      by_cases hc : (insert h s.visited_nodes).card ≤ s.node_count_to_fail_after
      · rw [if_pos hc, if_neg (by omega)]
      · rw [if_neg hc, if_pos (by omega)]
    | succ j2 =>
      have hj2 : j2 < t.length := by simpa using hj
      have hb2 : lookupA s.recorded_storage (t.get ⟨j2, hj2⟩) = some b := by
        simpa using hb
      simp only [runReplay, hstep, List.get?_cons_succ]
      have hall2 : ∀ h2 ∈ t, (lookupA ({ s with visited_nodes := insert h s.visited_nodes } :
          IncompletePartialStorage).recorded_storage h2).isSome = true := by
        intro h2 hm
        exact hall h2 (List.mem_cons_of_mem h hm)
      have := ih { s with visited_nodes := insert h s.visited_nodes } hall2 j2 hj2 b hb2
      rw [this]
      simp only [List.take_succ_cons, List.toFinset_cons, Finset.union_insert,
        Finset.insert_union]

theorem toFinset_take_card_mono (l : List Nat) {m n : Nat} (hmn : m ≤ n) :
    (l.take m).toFinset.card ≤ (l.take n).toFinset.card := by
  apply Finset.card_le_card
  intro x hx
  rw [List.mem_toFinset] at hx ⊢
  have he : l.take m = (l.take n).take m := by
    rw [List.take_take, Nat.min_eq_left hmn]
  rw [he] at hx
  exact List.take_subset _ _ hx

theorem toFinset_take_card_le (l : List Nat) (n : Nat) :
    (l.take n).toFinset.card ≤ l.toFinset.card := by
  apply Finset.card_le_card
  intro x hx
  rw [List.mem_toFinset] at hx ⊢
  exact List.take_subset _ _ hx

theorem take_succ_toFinset (seq : List Nat) (j : Nat) (hj : j < seq.length) :
    (seq.take (j + 1)).toFinset = insert (seq.get ⟨j, hj⟩) (seq.take j).toFinset := by
  have h1 : seq.take (j + 1) = seq.take j ++ [seq.get ⟨j, hj⟩] := by
    rw [List.take_succ, List.getElem?_eq_getElem hj]
    simp [List.get_eq_getElem]
  rw [h1, List.toFinset_append, List.toFinset_cons, List.toFinset_nil,
    Finset.union_insert, Finset.union_empty]

/-- Claim C1: for an execution recorded by recording storage — a sequence of
fetches seq whose blobs the recorded map serves with the very bytes origM of
the original store — replay storage with serve-limit i below the number N of
distinct hashes succeeds with the original bytes on every fetch while at most
i distinct hashes have been touched (in particular on every fetch before the
(i+1)-th distinct one) and returns the missing-node error on the (i+1)-th
distinct fetch; with the serve-limit covering all N distinct blobs, every
fetch of the replay returns byte-identical results to the original
execution. -/
theorem c1_replay_truncation (hashFn : Bytes → Nat) (nodes : List Bytes)
    (origM : List (Nat × Bytes)) (seq : List Nat) (i : Nat)
    (hagree : ∀ h ∈ seq, lookupA (recordedMap hashFn nodes) h = lookupA origM h)
    (hcover : ∀ h ∈ seq, (lookupA (recordedMap hashFn nodes) h).isSome = true) :
    (∀ (j : Nat) (hj : j < seq.length) (b : Bytes),
        lookupA origM (seq.get ⟨j, hj⟩) = some b →
        (seq.take (j + 1)).toFinset.card ≤ i →
        (runReplay (IncompletePartialStorage.new hashFn nodes i) seq).1.get? j =
          some (Except.ok b)) ∧
    (∀ (j : Nat) (hj : j < seq.length),
        seq.get ⟨j, hj⟩ ∉ seq.take j →
        (seq.take j).toFinset.card = i →
        (runReplay (IncompletePartialStorage.new hashFn nodes i) seq).1.get? j =
          some (Except.error StorageError.TrieNodeMissing)) ∧
    (seq.toFinset.card ≤ i →
      ∀ (j : Nat) (hj : j < seq.length) (b : Bytes),
        lookupA origM (seq.get ⟨j, hj⟩) = some b →
        (runReplay (IncompletePartialStorage.new hashFn nodes i) seq).1.get? j =
          some (Except.ok b)) := by
  have hchar : ∀ (j : Nat) (hj : j < seq.length) (b : Bytes),
      lookupA (recordedMap hashFn nodes) (seq.get ⟨j, hj⟩) = some b →
      (runReplay (IncompletePartialStorage.new hashFn nodes i) seq).1.get? j =
        some (if (seq.take (j + 1)).toFinset.card ≤ i
          then Except.ok b else Except.error StorageError.TrieNodeMissing) := by
    intro j hj b hb
    have := runReplay_get_char seq (IncompletePartialStorage.new hashFn nodes i)
      hcover j hj b hb
    rw [this]
    simp [IncompletePartialStorage.new]
  have hOk : ∀ (j : Nat) (hj : j < seq.length) (b : Bytes),
      lookupA origM (seq.get ⟨j, hj⟩) = some b →
      (seq.take (j + 1)).toFinset.card ≤ i →
      (runReplay (IncompletePartialStorage.new hashFn nodes i) seq).1.get? j =
        some (Except.ok b) := by
    intro j hj b hb hc
    have hm : lookupA (recordedMap hashFn nodes) (seq.get ⟨j, hj⟩) = some b := by
      rw [hagree (seq.get ⟨j, hj⟩) (seq.get_mem j hj)]
      exact hb
    rw [hchar j hj b hm, if_pos hc]
  refine ⟨hOk, ?_, ?_⟩
  · intro j hj hnew hcard
    obtain ⟨b, hb⟩ : ∃ b, lookupA (recordedMap hashFn nodes) (seq.get ⟨j, hj⟩) = some b := by
      have hs := hcover (seq.get ⟨j, hj⟩) (seq.get_mem j hj)
      cases hx : lookupA (recordedMap hashFn nodes) (seq.get ⟨j, hj⟩) with
      | none => rw [hx] at hs; simp at hs
      | some v => exact ⟨v, rfl⟩
    rw [hchar j hj b hb]
    have hins : (seq.take (j + 1)).toFinset.card = i + 1 := by
      rw [take_succ_toFinset seq j hj,
        Finset.card_insert_of_not_mem (by rw [List.mem_toFinset]; exact hnew), hcard]
    rw [if_neg (by omega)]
  · intro hN j hj b hb
    exact hOk j hj b hb (le_trans (toFinset_take_card_le seq (j + 1)) hN)

/-- Witness for C1 at a concrete recorded execution: two distinct blobs, the
fetch sequence [1, 1, 2].  With serve-limit 1 the second call (same hash)
still succeeds with the original bytes, the third call — the second distinct
fetch — fails with the missing-node error; with serve-limit 2 the third call
succeeds with the original bytes. -/
theorem c1_replay_truncation_witness :
    (runReplay (IncompletePartialStorage.new (fun b => b.headD 0) [[1], [2]] 1)
        [1, 1, 2]).1.get? 1 = some (Except.ok [1]) ∧
    (runReplay (IncompletePartialStorage.new (fun b => b.headD 0) [[1], [2]] 1)
        [1, 1, 2]).1.get? 2 = some (Except.error StorageError.TrieNodeMissing) ∧
    (runReplay (IncompletePartialStorage.new (fun b => b.headD 0) [[1], [2]] 2)
        [1, 1, 2]).1.get? 2 = some (Except.ok [2]) := by
  refine ⟨?_, ?_, ?_⟩
  · exact (c1_replay_truncation (fun b => b.headD 0) [[1], [2]] [(1, [1]), (2, [2])]
      [1, 1, 2] 1 (by decide) (by decide)).1 1 (by decide) [1] (by decide) (by decide)
  · exact (c1_replay_truncation (fun b => b.headD 0) [[1], [2]] [(1, [1]), (2, [2])]
      [1, 1, 2] 1 (by decide) (by decide)).2.1 2 (by decide) (by decide) (by decide)
  · exact (c1_replay_truncation (fun b => b.headD 0) [[1], [2]] [(1, [1]), (2, [2])]
      [1, 1, 2] 2 (by decide) (by decide)).2.2 (by decide) 2 (by decide) [2] (by decide)

/-- Claim C9: calling as_partial_storage on the proof-replay storage variant
always signals the programming-error condition — it fails loudly with a
failed assertion and thus never returns a value posing as genuine partial
storage. -/
theorem c9_as_partial_storage_panics (s : IncompletePartialStorage) :
    s.as_partial_storage = PanicOr.panicked "not implemented" := rfl

theorem replay_over_limit_all_fail (seq : List Nat) : ∀ (s : IncompletePartialStorage),
    s.node_count_to_fail_after < s.visited_nodes.card →
    ∀ (j : Nat), j < seq.length →
      (runReplay s seq).1.get? j = some (Except.error StorageError.TrieNodeMissing) := by
  induction seq with
  | nil => intro s _ j hj; simp at hj
  | cons h t ih =>
    intro s hover j hj
    have hsub : s.visited_nodes.card ≤ ((s.retrieve_raw_bytes h).2).visited_nodes.card := by
      cases hx : lookupA s.recorded_storage h with
      | none => rw [replay_retrieve_of_none s h hx]
      | some bh =>
        rw [replay_retrieve_of_some s h bh hx]
        split <;> exact Finset.card_le_card (Finset.subset_insert h s.visited_nodes)
    have hlim : ((s.retrieve_raw_bytes h).2).node_count_to_fail_after =
        s.node_count_to_fail_after := by
      cases hx : lookupA s.recorded_storage h with
      | none => rw [replay_retrieve_of_none s h hx]
      | some bh => rw [replay_retrieve_of_some s h bh hx]
    have hfail : (s.retrieve_raw_bytes h).1 = Except.error StorageError.TrieNodeMissing := by
      cases hx : lookupA s.recorded_storage h with
      | none => rw [replay_retrieve_of_none s h hx]
      | some bh =>
        rw [replay_retrieve_of_some s h bh hx]
        have : s.node_count_to_fail_after < (insert h s.visited_nodes).card :=
          lt_of_lt_of_le hover (Finset.card_le_card (Finset.subset_insert h s.visited_nodes))
        rw [if_pos this]
    cases j with
    | zero => simp [runReplay, hfail]
    | succ j2 =>
      have hj2 : j2 < t.length := by simpa using hj
      simp only [runReplay, List.get?_cons_succ]
      exact ih (s.retrieve_raw_bytes h).2 (by omega) j2 hj2

/-- Claim C10: once a replay-storage retrieval of a recorded hash has failed
(the visited set crossed the serve limit), every subsequent retrieval —
including retrievals of hashes previously served successfully — also fails
with TrieNodeMissing, since the visited set never shrinks. -/
theorem c10_failure_is_terminal (s : IncompletePartialStorage) (h : Nat)
    (hin : (lookupA s.recorded_storage h).isSome = true)
    (hfail : (s.retrieve_raw_bytes h).1 = Except.error StorageError.TrieNodeMissing) :
    ∀ (seq : List Nat) (j : Nat), j < seq.length →
      (runReplay ((s.retrieve_raw_bytes h).2) seq).1.get? j =
        some (Except.error StorageError.TrieNodeMissing) := by
  obtain ⟨bh, hbh⟩ : ∃ bh, lookupA s.recorded_storage h = some bh := by
    cases hx : lookupA s.recorded_storage h with
    | none => rw [hx] at hin; simp at hin
    | some v => exact ⟨v, rfl⟩
  have hstep := replay_retrieve_of_some s h bh hbh
  have hover : s.node_count_to_fail_after < (insert h s.visited_nodes).card := by
    by_contra hc
    rw [hstep, if_neg hc] at hfail
    simp at hfail
  intro seq j hj
  apply replay_over_limit_all_fail seq
  · rw [hstep, if_pos hover]
    exact hover
  · exact hj

/-- Witness for C10: replay storage with one recorded blob and serve limit 0
whose visited set already holds another hash; retrieving the recorded hash
fails by crossing the limit, and the next retrieval of that same previously
recorded hash fails again. -/
theorem c10_failure_is_terminal_witness :
    (runReplay ((IncompletePartialStorage.mk [(1, [5])] (insert 2 ∅) 0).retrieve_raw_bytes 1).2
      [1]).1.get? 0 = some (Except.error StorageError.TrieNodeMissing) :=
  c10_failure_is_terminal (IncompletePartialStorage.mk [(1, [5])] (insert 2 ∅) 0) 1
    (by decide) (by decide) [1] 0 (by decide)

theorem retrieve_cc_hit (s : TrieCachingStorage) (h : Nat) (b : Bytes)
    (hcc : lookupA s.chunk_cache h = some b) :
    s.retrieve_raw_bytes h = (Except.ok b, s) := by
  unfold TrieCachingStorage.retrieve_raw_bytes
  rw [hcc]

theorem tc_get_none (c : TrieCache) (h : Nat) (hl : lookupA c.entries h = none) :
    TrieCache.get c h = (none, c) := by
  unfold TrieCache.get
  rw [hl]

theorem tc_get_some (c : TrieCache) (h : Nat) (b : Bytes)
    (hl : lookupA c.entries h = some b) :
    TrieCache.get c h = (some b, { c with entries := (h, b) :: eraseKey c.entries h }) := by
  unfold TrieCache.get
  rw [hl]

theorem retrieveFound_counter (s : TrieCachingStorage) (h : Nat) (b : Bytes) (sc : TrieCache) :
    ((s.retrieveFound h b sc).2).counter = s.counter + 1 := rfl

theorem retrieve_counter (s : TrieCachingStorage) (h : Nat) :
    ((s.retrieve_raw_bytes h).2).counter =
      if lookupA s.chunk_cache h = none then s.counter + 1 else s.counter := by
  cases hcc : lookupA s.chunk_cache h with
  | some b =>
    rw [retrieve_cc_hit s h b hcc]
    simp
  | none =>
    rw [if_pos rfl]
    unfold TrieCachingStorage.retrieve_raw_bytes
    rw [hcc]
    rcases hg : TrieCache.get s.shard_cache h with ⟨ob, sc⟩
    cases ob with
    | some b => exact retrieveFound_counter s h b sc
    | none =>
      cases hst : lookupA s.store h with
      | some b => exact retrieveFound_counter s h b sc
      | none => rfl

theorem runRetrieves_take_succ (s : TrieCachingStorage) (seq : List Nat) (j : Nat)
    (hj : j < seq.length) :
    runRetrieves s (seq.take (j + 1)) =
      ((runRetrieves s (seq.take j)).retrieve_raw_bytes (seq.get ⟨j, hj⟩)).2 := by
  have h1 : seq.take (j + 1) = seq.take j ++ [seq.get ⟨j, hj⟩] := by
    rw [List.take_succ, List.getElem?_eq_getElem hj]
    simp [List.get_eq_getElem]
  rw [h1]
  unfold runRetrieves
  rw [List.foldl_append]
  rfl

/-- Claim C2: along any sequence of retrieve calls on live caching storage,
the touch counter is non-decreasing, rises by at most one per call, and rises
by exactly one on a call exactly when the requested hash was absent from the
chunk touch registry immediately before the call — whatever the cache mode. -/
theorem c2_touch_counter (s : TrieCachingStorage) (seq : List Nat) (j : Nat)
    (hj : j < seq.length) :
    (runRetrieves s (seq.take j)).get_touched_nodes_count ≤
      (runRetrieves s (seq.take (j + 1))).get_touched_nodes_count ∧
    (runRetrieves s (seq.take (j + 1))).get_touched_nodes_count ≤
      (runRetrieves s (seq.take j)).get_touched_nodes_count + 1 ∧
    ((runRetrieves s (seq.take (j + 1))).get_touched_nodes_count =
        (runRetrieves s (seq.take j)).get_touched_nodes_count + 1 ↔
      lookupA (runRetrieves s (seq.take j)).chunk_cache (seq.get ⟨j, hj⟩) = none) := by
  rw [runRetrieves_take_succ s seq j hj]
  unfold TrieCachingStorage.get_touched_nodes_count
  rw [retrieve_counter]
  by_cases hcc : lookupA (runRetrieves s (seq.take j)).chunk_cache (seq.get ⟨j, hj⟩) = none
  · rw [if_pos hcc]
    exact ⟨by omega, by omega, iff_of_true rfl hcc⟩
  · rw [if_neg hcc]
    exact ⟨by omega, by omega, iff_of_false (by omega) hcc⟩

/-- Witness for C2 at a concrete storage and the one-call sequence [5]: the
counter before is bounded by the counter after, which rises by at most one,
and rises by exactly one here since the registry starts empty. -/
theorem c2_touch_counter_witness :
    (runRetrieves (TrieCachingStorage.new [(5, [1])] TrieCache.new)
        ([5].take 0)).get_touched_nodes_count ≤
      (runRetrieves (TrieCachingStorage.new [(5, [1])] TrieCache.new)
        ([5].take 1)).get_touched_nodes_count ∧
    (runRetrieves (TrieCachingStorage.new [(5, [1])] TrieCache.new)
        ([5].take 1)).get_touched_nodes_count ≤
      (runRetrieves (TrieCachingStorage.new [(5, [1])] TrieCache.new)
        ([5].take 0)).get_touched_nodes_count + 1 ∧
    ((runRetrieves (TrieCachingStorage.new [(5, [1])] TrieCache.new)
        ([5].take 1)).get_touched_nodes_count =
      (runRetrieves (TrieCachingStorage.new [(5, [1])] TrieCache.new)
        ([5].take 0)).get_touched_nodes_count + 1 ↔
      lookupA (runRetrieves (TrieCachingStorage.new [(5, [1])] TrieCache.new)
        ([5].take 0)).chunk_cache ([5].get ⟨0, by decide⟩) = none) :=
  c2_touch_counter (TrieCachingStorage.new [(5, [1])] TrieCache.new) [5] 0 (by decide)

/-- Claim C3: when a retrieve on live caching storage finds the hash in
neither the chunk touch registry, nor the bounded shard cache, nor the
backing content store, it fails with the missing-node error (which live
storage surfaces as StorageInconsistentState). -/
theorem c3_retrieve_node_missing (s : TrieCachingStorage) (h : Nat)
    (hcc : lookupA s.chunk_cache h = none)
    (hsc : lookupA s.shard_cache.entries h = none)
    (hst : lookupA s.store h = none) :
    (s.retrieve_raw_bytes h).1 = Except.error nodeMissingError := by
  unfold TrieCachingStorage.retrieve_raw_bytes
  rw [hcc, tc_get_none s.shard_cache h hsc, hst]

/-- Witness for C3: a fresh session over an empty backing store fails with
the missing-node error on any hash. -/
theorem c3_retrieve_node_missing_witness :
    ((TrieCachingStorage.new [] TrieCache.new).retrieve_raw_bytes 1).1 =
      Except.error nodeMissingError :=
  c3_retrieve_node_missing (TrieCachingStorage.new [] TrieCache.new) 1 rfl rfl rfl

theorem lookupA_insertA_preserve (l : List (Nat × Bytes)) (h h2 : Nat) (b b2 : Bytes)
    (hl : lookupA l h = some b) :
    lookupA (insertA l h2 b2) h = some b := by
  unfold insertA
  cases hx : lookupA l h2 with
  | some v => exact hl
  | none =>
    unfold lookupA
    by_cases he : h2 = h
    · subst he; rw [hx] at hl; simp at hl
    · rw [if_neg he]; exact hl

theorem retrieveFound_chunk_preserve (s : TrieCachingStorage) (h2 : Nat) (b2 : Bytes)
    (sc : TrieCache) (h : Nat) (b : Bytes)
    (hcc : lookupA s.chunk_cache h = some b) :
    lookupA ((s.retrieveFound h2 b2 sc).2).chunk_cache h = some b := by
  show lookupA (if s.cache_mode = TrieCacheMode.CachingChunk
    then insertA s.chunk_cache h2 b2 else s.chunk_cache) h = some b
  split
  · exact lookupA_insertA_preserve s.chunk_cache h h2 b b2 hcc
  · exact hcc

theorem retrieve_chunk_preserve (s : TrieCachingStorage) (h h2 : Nat) (b : Bytes)
    (hcc : lookupA s.chunk_cache h = some b) :
    lookupA ((s.retrieve_raw_bytes h2).2).chunk_cache h = some b := by
  unfold TrieCachingStorage.retrieve_raw_bytes
  cases hx : lookupA s.chunk_cache h2 with
  | some v => exact hcc
  | none =>
    rcases hg : TrieCache.get s.shard_cache h2 with ⟨ob, sc⟩
    cases ob with
    | some v => exact retrieveFound_chunk_preserve s h2 v sc h b hcc
    | none =>
      cases hst : lookupA s.store h2 with
      | some v => exact retrieveFound_chunk_preserve s h2 v sc h b hcc
      | none => exact hcc

theorem applyOp_chunk_preserve (s : TrieCachingStorage) (op : StorageOp) (h : Nat) (b : Bytes)
    (hcc : lookupA s.chunk_cache h = some b) :
    lookupA ((applyOp s op).chunk_cache) h = some b := by
  cases op with
  | retrieveOp h2 => exact retrieve_chunk_preserve s h h2 b hcc
  | setModeOp m => exact hcc

theorem runOps_chunk_preserve (ops : List StorageOp) : ∀ (s : TrieCachingStorage)
    (h : Nat) (b : Bytes), lookupA s.chunk_cache h = some b →
    lookupA ((runOps s ops).chunk_cache) h = some b := by
  induction ops with
  | nil => intro s h b hcc; exact hcc
  | cons op rest ih =>
    intro s h b hcc
    exact ih (applyOp s op) h b (applyOp_chunk_preserve s op h b hcc)

/-- Claim C6: a hash recorded in the chunk touch registry stays retrievable
with its original bytes for the rest of the session: after any further
operations — in particular ones that leave the bounded shard cache without
the entry — a retrieve still succeeds with those bytes and leaves the touch
counter unchanged. -/
theorem c6_eviction_survival (s : TrieCachingStorage) (h : Nat) (b : Bytes)
    (hcc : lookupA s.chunk_cache h = some b) :
    ∀ ops : List StorageOp,
      lookupA ((runOps s ops).chunk_cache) h = some b ∧
      (lookupA ((runOps s ops).shard_cache.entries) h = none →
        ((runOps s ops).retrieve_raw_bytes h).1 = Except.ok b ∧
        (((runOps s ops).retrieve_raw_bytes h).2).get_touched_nodes_count =
          (runOps s ops).get_touched_nodes_count) := by
  intro ops
  have hp := runOps_chunk_preserve ops s h b hcc
  refine ⟨hp, fun _ => ?_⟩
  rw [retrieve_cc_hit (runOps s ops) h b hp]
  exact ⟨rfl, rfl⟩

/-- Witness for C6: a session whose registry holds hash 9 with bytes [4] and
whose shard cache is empty; after no further operations the retrieve returns
[4] and the counter stays 0. -/
theorem c6_eviction_survival_witness :
    lookupA ((runOps (TrieCachingStorage.mk [] TrieCache.new [(9, [4])]
        TrieCacheMode.CachingShard 0) []).chunk_cache) 9 = some [4] ∧
    (lookupA ((runOps (TrieCachingStorage.mk [] TrieCache.new [(9, [4])]
        TrieCacheMode.CachingShard 0) []).shard_cache.entries) 9 = none →
      ((runOps (TrieCachingStorage.mk [] TrieCache.new [(9, [4])]
        TrieCacheMode.CachingShard 0) []).retrieve_raw_bytes 9).1 = Except.ok [4] ∧
      (((runOps (TrieCachingStorage.mk [] TrieCache.new [(9, [4])]
        TrieCacheMode.CachingShard 0) []).retrieve_raw_bytes 9).2).get_touched_nodes_count =
        (runOps (TrieCachingStorage.mk [] TrieCache.new [(9, [4])]
        TrieCacheMode.CachingShard 0) []).get_touched_nodes_count) :=
  c6_eviction_survival (TrieCachingStorage.mk [] TrieCache.new [(9, [4])]
    TrieCacheMode.CachingShard 0) 9 [4] (by decide) []

/-- Counterexample to claim C4 as stated: in a fresh session the first
retrieve of hash 7, performed in the default CachingShard mode, raises the
touch counter to 1 (the hash is counted under ShardCaching); after switching
to CachingChunk mode, retrieving the very same hash raises the counter again,
to 2 — so a hash counted under one mode is recounted under the other. -/
theorem c4_mode_recount_counterexample :
    (((TrieCachingStorage.new [(7, [1])] TrieCache.new).retrieve_raw_bytes 7).2).counter = 1 ∧
    (((((TrieCachingStorage.new [(7, [1])] TrieCache.new).retrieve_raw_bytes 7).2.set_mode
        TrieCacheMode.CachingChunk).retrieve_raw_bytes 7).2).counter = 2 := by
  decide

/-- A successful retrieval in CachingChunk mode leaves the requested hash in
the chunk touch registry, mapped to the returned bytes. -/
theorem retrieve_chunk_mode_registers (s : TrieCachingStorage) (h : Nat)
    (hmode : s.cache_mode = TrieCacheMode.CachingChunk) (b : Bytes)
    (hok : (s.retrieve_raw_bytes h).1 = Except.ok b) :
    lookupA ((s.retrieve_raw_bytes h).2).chunk_cache h = some b := by
  cases hx : lookupA s.chunk_cache h with
  | some v =>
    rw [retrieve_cc_hit s h v hx] at hok ⊢
    have hvb : v = b := by
      have h2 := hok
      simp at h2
      exact h2
    subst hvb
    exact hx
  | none =>
    cases hsc : lookupA s.shard_cache.entries h with
    | some v =>
      have hr : s.retrieve_raw_bytes h = s.retrieveFound h v
          { s.shard_cache with entries := (h, v) :: eraseKey s.shard_cache.entries h } := by
        unfold TrieCachingStorage.retrieve_raw_bytes
        rw [hx, tc_get_some s.shard_cache h v hsc]
      rw [hr] at hok ⊢
      have hvb : v = b := by
        unfold TrieCachingStorage.retrieveFound at hok
        simp at hok
        exact hok
      subst hvb
      show lookupA (if s.cache_mode = TrieCacheMode.CachingChunk
        then insertA s.chunk_cache h v else s.chunk_cache) h = some v
      rw [if_pos hmode]
      unfold insertA
      rw [hx]
      unfold lookupA
      rw [if_pos rfl]
    | none =>
      cases hst : lookupA s.store h with
      | some v =>
        have hr : s.retrieve_raw_bytes h = s.retrieveFound h v s.shard_cache := by
          unfold TrieCachingStorage.retrieve_raw_bytes
          rw [hx, tc_get_none s.shard_cache h hsc, hst]
        rw [hr] at hok ⊢
        have hvb : v = b := by
          unfold TrieCachingStorage.retrieveFound at hok
          simp at hok
          exact hok
        subst hvb
        show lookupA (if s.cache_mode = TrieCacheMode.CachingChunk
          then insertA s.chunk_cache h v else s.chunk_cache) h = some v
        rw [if_pos hmode]
        unfold insertA
        rw [hx]
        unfold lookupA
        rw [if_pos rfl]
      | none =>
        have hr : (s.retrieve_raw_bytes h).1 = Except.error nodeMissingError := by
          unfold TrieCachingStorage.retrieve_raw_bytes
          rw [hx, tc_get_none s.shard_cache h hsc, hst]
        rw [hr] at hok
        simp at hok

/-- Claim C4 as amended: a hash whose retrieval succeeded under CachingChunk
mode (which put it into the chunk touch registry, whether or not that call
incremented the counter) never increments the touch counter again on a later
retrieve within the session, under either mode and after any interleaved
operations — in particular even if it was evicted from the bounded cache. -/
theorem c4_chunk_counted_never_recounted (s : TrieCachingStorage) (h : Nat) (b : Bytes)
    (hmode : s.cache_mode = TrieCacheMode.CachingChunk)
    (hok : (s.retrieve_raw_bytes h).1 = Except.ok b) :
    ∀ ops : List StorageOp,
      (((runOps ((s.retrieve_raw_bytes h).2) ops).retrieve_raw_bytes h).2).counter =
        (runOps ((s.retrieve_raw_bytes h).2) ops).counter := by
  have hreg := retrieve_chunk_mode_registers s h hmode b hok
  intro ops
  have hp := runOps_chunk_preserve ops ((s.retrieve_raw_bytes h).2) h b hreg
  rw [retrieve_counter, hp]
  simp

/-- Witness for the amended C4: a session in CachingChunk mode retrieves hash
7 successfully; after a switch back to CachingShard a retrieve of 7 leaves
the counter unchanged. -/
theorem c4_chunk_counted_never_recounted_witness :
    (((runOps ((((TrieCachingStorage.new [(7, [1])] TrieCache.new).set_mode
          TrieCacheMode.CachingChunk).retrieve_raw_bytes 7).2)
        [StorageOp.setModeOp TrieCacheMode.CachingShard]).retrieve_raw_bytes 7).2).counter =
      (runOps ((((TrieCachingStorage.new [(7, [1])] TrieCache.new).set_mode
          TrieCacheMode.CachingChunk).retrieve_raw_bytes 7).2)
        [StorageOp.setModeOp TrieCacheMode.CachingShard]).counter :=
  c4_chunk_counted_never_recounted
    ((TrieCachingStorage.new [(7, [1])] TrieCache.new).set_mode TrieCacheMode.CachingChunk)
    7 [1] rfl (by decide) [StorageOp.setModeOp TrieCacheMode.CachingShard]

theorem mem_eraseKey (l : List (Nat × Bytes)) (h : Nat) (p : Nat × Bytes)
    (hp : p ∈ eraseKey l h) : p ∈ l :=
  (List.mem_filter.mp hp).1

theorem mem_tc_put (c : TrieCache) (h : Nat) (b : Bytes) (p : Nat × Bytes)
    (hp : p ∈ (TrieCache.put c h b).entries) : p = (h, b) ∨ p ∈ c.entries := by
  have hp2 : p ∈ (h, b) :: eraseKey c.entries h := List.take_subset _ _ hp
  rcases List.mem_cons.mp hp2 with he | ht
  · exact Or.inl he
  · exact Or.inr (mem_eraseKey c.entries h p ht)

theorem cacheInv_retrieveFound (s : TrieCachingStorage) (h : Nat) (b : Bytes) (sc : TrieCache)
    (hinv_sc : ∀ p ∈ sc.entries,
      lookupA s.store p.1 = some p.2 ∧ p.2.length ≤ TRIE_LIMIT_CACHED_VALUE_SIZE)
    (hb : lookupA s.store h = some b) :
    cacheInv ((s.retrieveFound h b sc).2) := by
  show ∀ p ∈ (if s.cache_mode = TrieCacheMode.CachingShard ∧
      b.length ≤ TRIE_LIMIT_CACHED_VALUE_SIZE then sc.put h b else sc).entries,
    lookupA s.store p.1 = some p.2 ∧ p.2.length ≤ TRIE_LIMIT_CACHED_VALUE_SIZE
  split
  · rename_i hguard
    intro p hp
    rcases mem_tc_put sc h b p hp with he | ht
    · subst he
      exact ⟨hb, hguard.2⟩
    · exact hinv_sc p ht
  · exact hinv_sc

theorem cacheInv_retrieve (s : TrieCachingStorage) (h : Nat) (hinv : cacheInv s) :
    cacheInv ((s.retrieve_raw_bytes h).2) := by
  cases hx : lookupA s.chunk_cache h with
  | some v =>
    rw [retrieve_cc_hit s h v hx]
    exact hinv
  | none =>
    cases hsc : lookupA s.shard_cache.entries h with
    | some v =>
      have hr : s.retrieve_raw_bytes h = s.retrieveFound h v
          { s.shard_cache with entries := (h, v) :: eraseKey s.shard_cache.entries h } := by
        unfold TrieCachingStorage.retrieve_raw_bytes
        rw [hx, tc_get_some s.shard_cache h v hsc]
      rw [hr]
      have hmem := lookupA_mem s.shard_cache.entries h v hsc
      apply cacheInv_retrieveFound
      · intro p hp
        rcases List.mem_cons.mp hp with he | ht
        · subst he
          exact hinv (h, v) hmem
        · exact hinv p (mem_eraseKey s.shard_cache.entries h p ht)
      · exact (hinv (h, v) hmem).1
    | none =>
      cases hst : lookupA s.store h with
      | some v =>
        have hr : s.retrieve_raw_bytes h = s.retrieveFound h v s.shard_cache := by
          unfold TrieCachingStorage.retrieve_raw_bytes
          rw [hx, tc_get_none s.shard_cache h hsc, hst]
        rw [hr]
        exact cacheInv_retrieveFound s h v s.shard_cache (fun p hp => hinv p hp) hst
      | none =>
        have hr : (s.retrieve_raw_bytes h).2 = { s with counter := s.counter + 1 } := by
          unfold TrieCachingStorage.retrieve_raw_bytes
          rw [hx, tc_get_none s.shard_cache h hsc, hst]
        rw [hr]
        exact fun p hp => hinv p hp

theorem cacheInv_applyOp (s : TrieCachingStorage) (op : StorageOp) (hinv : cacheInv s) :
    cacheInv (applyOp s op) := by
  cases op with
  | retrieveOp h => exact cacheInv_retrieve s h hinv
  | setModeOp m => exact fun p hp => hinv p hp

theorem cacheInv_runOps (ops : List StorageOp) : ∀ (s : TrieCachingStorage),
    cacheInv s → cacheInv (runOps s ops) := by
  induction ops with
  | nil => intro s hinv; exact hinv
  | cons op rest ih => intro s hinv; exact ih (applyOp s op) (cacheInv_applyOp s op hinv)

theorem retrieve_store_eq (s : TrieCachingStorage) (h : Nat) :
    ((s.retrieve_raw_bytes h).2).store = s.store := by
  cases hx : lookupA s.chunk_cache h with
  | some v => rw [retrieve_cc_hit s h v hx]
  | none =>
    cases hsc : lookupA s.shard_cache.entries h with
    | some v =>
      have hr : s.retrieve_raw_bytes h = s.retrieveFound h v
          { s.shard_cache with entries := (h, v) :: eraseKey s.shard_cache.entries h } := by
        unfold TrieCachingStorage.retrieve_raw_bytes
        rw [hx, tc_get_some s.shard_cache h v hsc]
      rw [hr]
      rfl
    | none =>
      cases hst : lookupA s.store h with
      | some v =>
        have hr : s.retrieve_raw_bytes h = s.retrieveFound h v s.shard_cache := by
          unfold TrieCachingStorage.retrieve_raw_bytes
          rw [hx, tc_get_none s.shard_cache h hsc, hst]
        rw [hr]
        rfl
      | none =>
        have hr : (s.retrieve_raw_bytes h).2 = { s with counter := s.counter + 1 } := by
          unfold TrieCachingStorage.retrieve_raw_bytes
          rw [hx, tc_get_none s.shard_cache h hsc, hst]
        rw [hr]

theorem runOps_store_eq (ops : List StorageOp) : ∀ (s : TrieCachingStorage),
    (runOps s ops).store = s.store := by
  induction ops with
  | nil => intro s; rfl
  | cons op rest ih =>
    intro s
    rw [show runOps s (op :: rest) = runOps (applyOp s op) rest from rfl, ih]
    cases op with
    | retrieveOp h => exact retrieve_store_eq s h
    | setModeOp m => rfl

theorem inv_large_absent (s : TrieCachingStorage) (h : Nat) (b : Bytes)
    (hinv : cacheInv s) (hst : lookupA s.store h = some b)
    (hlen : TRIE_LIMIT_CACHED_VALUE_SIZE < b.length) :
    lookupA s.shard_cache.entries h = none := by
  cases hx : lookupA s.shard_cache.entries h with
  | none => rfl
  | some v =>
    exfalso
    have hm := lookupA_mem s.shard_cache.entries h v hx
    have hvp := hinv (h, v) hm
    have hbv : b = v := by
      have h2 := hvp.1
      rw [hst] at h2
      exact Option.some.inj h2
    subst hbv
    have h3 : b.length ≤ TRIE_LIMIT_CACHED_VALUE_SIZE := hvp.2
    omega

/-- Claim C5: a blob longer than the configured size threshold is never in
the bounded shard cache after any sequence of operations (whatever the cache
modes used), provided the cache is sound to begin with; and a first retrieve
of it performed under CachingChunk mode succeeds, places it in the chunk
touch registry, and makes the following retrieve succeed with the same bytes
without incrementing the touch counter. -/
theorem c5_large_value (s : TrieCachingStorage) (h : Nat) (b : Bytes)
    (hinv : cacheInv s) (hst : lookupA s.store h = some b)
    (hlen : TRIE_LIMIT_CACHED_VALUE_SIZE < b.length) :
    (∀ ops : List StorageOp, lookupA ((runOps s ops).shard_cache.entries) h = none) ∧
    (s.cache_mode = TrieCacheMode.CachingChunk → lookupA s.chunk_cache h = none →
      (s.retrieve_raw_bytes h).1 = Except.ok b ∧
      lookupA ((s.retrieve_raw_bytes h).2).chunk_cache h = some b ∧
      (((s.retrieve_raw_bytes h).2).retrieve_raw_bytes h).1 = Except.ok b ∧
      ((((s.retrieve_raw_bytes h).2).retrieve_raw_bytes h).2).counter =
        ((s.retrieve_raw_bytes h).2).counter) := by
  constructor
  · intro ops
    apply inv_large_absent (runOps s ops) h b (cacheInv_runOps ops s hinv)
    · rw [runOps_store_eq ops s]
      exact hst
    · exact hlen
  · intro hmode hcc
    have hsc : lookupA s.shard_cache.entries h = none := inv_large_absent s h b hinv hst hlen
    have hr : s.retrieve_raw_bytes h = s.retrieveFound h b s.shard_cache := by
      unfold TrieCachingStorage.retrieve_raw_bytes
      rw [hcc, tc_get_none s.shard_cache h hsc, hst]
    have hok : (s.retrieve_raw_bytes h).1 = Except.ok b := by
      rw [hr]
      rfl
    have hreg := retrieve_chunk_mode_registers s h hmode b hok
    have hsecond := retrieve_cc_hit ((s.retrieve_raw_bytes h).2) h b hreg
    refine ⟨hok, hreg, ?_, ?_⟩
    · rw [hsecond]
    · rw [hsecond]

set_option maxRecDepth 100000 in
/-- Witness for C5: a session in CachingChunk mode over a store holding one
blob of length 1001 (above the threshold 1000): the blob is absent from the
shard cache after retrieving it, the first retrieve succeeds and registers
it in the chunk registry, and the second retrieve succeeds at no counter
cost. -/
theorem c5_large_value_witness :
    (lookupA ((runOps ((TrieCachingStorage.new [(3, List.replicate 1001 5)]
        TrieCache.new).set_mode TrieCacheMode.CachingChunk)
        [StorageOp.retrieveOp 3]).shard_cache.entries) 3 = none) ∧
    ((((TrieCachingStorage.new [(3, List.replicate 1001 5)]
        TrieCache.new).set_mode TrieCacheMode.CachingChunk).retrieve_raw_bytes 3).1 =
      Except.ok (List.replicate 1001 5) ∧
      lookupA ((((TrieCachingStorage.new [(3, List.replicate 1001 5)]
        TrieCache.new).set_mode TrieCacheMode.CachingChunk).retrieve_raw_bytes 3).2).chunk_cache 3 =
        some (List.replicate 1001 5) ∧
      (((((TrieCachingStorage.new [(3, List.replicate 1001 5)]
        TrieCache.new).set_mode TrieCacheMode.CachingChunk).retrieve_raw_bytes 3).2).retrieve_raw_bytes 3).1 =
        Except.ok (List.replicate 1001 5) ∧
      ((((((TrieCachingStorage.new [(3, List.replicate 1001 5)]
        TrieCache.new).set_mode TrieCacheMode.CachingChunk).retrieve_raw_bytes 3).2).retrieve_raw_bytes 3).2).counter =
        (((((TrieCachingStorage.new [(3, List.replicate 1001 5)]
        TrieCache.new).set_mode TrieCacheMode.CachingChunk).retrieve_raw_bytes 3).2)).counter) :=
  ⟨(c5_large_value ((TrieCachingStorage.new [(3, List.replicate 1001 5)]
        TrieCache.new).set_mode TrieCacheMode.CachingChunk) 3 (List.replicate 1001 5)
      (fun p hp => absurd hp (List.not_mem_nil p)) (by decide) (by decide)).1 [StorageOp.retrieveOp 3],
   (c5_large_value ((TrieCachingStorage.new [(3, List.replicate 1001 5)]
        TrieCache.new).set_mode TrieCacheMode.CachingChunk) 3 (List.replicate 1001 5)
      (fun p hp => absurd hp (List.not_mem_nil p)) (by decide) (by decide)).2 rfl rfl⟩

/-- Claim C7: on the trie built from the three keys with nibble paths
[0,0,0], [0,1,1], [1,0,0] (values [0], [1], [2]) and cold caches, looking the
three keys up in order returns the right values while touching exactly 5, 5
and 4 nodes (touch-counter deltas), and afterwards the bounded shard cache
holds exactly 9 distinct entries. -/
theorem c7_concrete_count :
    (runLookups c7Storage 100 c7Keys).1 =
      [(Except.ok (some [0]), 5), (Except.ok (some [1]), 5), (Except.ok (some [2]), 4)] ∧
    (runLookups c7Storage 100 c7Keys).2.shard_cache.len = 9 := by
  constructor
  · decide
  · decide

/-- Claim C8: committing the two-key scenario whose byte-identical value is
logically inserted twice yields 5 physical entries (4 distinct node blobs
plus 1 shared value, not 2); looking both keys up succeeds with the shared
value, touching 4 nodes each, and the bounded shard cache ends with exactly
5 distinct entries. -/
theorem c8_repeated_values :
    c8PhysicalStore.length = 5 ∧
    (runLookups c8Storage 200 c8Keys).1 =
      [(Except.ok (some [1]), 4), (Except.ok (some [1]), 4)] ∧
    (runLookups c8Storage 200 c8Keys).2.shard_cache.len = 5 := by
  refine ⟨?_, ?_, ?_⟩
  · decide
  · decide
  · decide
